import Mathlib

/-!
Formal model of the Adafruit CC3000 TCP echo server sketch
(`echoserver` example: `addNewClient`, `removeClient`, `echoLoop`).

The sketch keeps a singly linked list of connected clients:

  struct ClientList { int socket; Adafruit_CC3000_Client client; ClientList* next; };
  ClientList* clients;   // head of the chain
  int clientCount;       // number of connected clients

We embed the heap-allocated chain as a `List Node`, where each `Node`
carries the address `malloc` returned for it (field `id`); pointer
equality in the C code becomes equality of `id`s.  The `next` pointers
are the list structure itself.  The CC3000 client object
(`Adafruit_CC3000_Client`) is modelled as a `Session`: the bytes still
buffered for reading (`rx`, what `available`/`read` expose), the bytes
written back so far (`tx`, what `write` appends to), an oracle of write
results (`writeOk`: `write` returns 0 exactly when the next oracle entry
is `false`; an exhausted oracle means every further write succeeds), and
the value the `connected()` liveness check reports.
-/

/-- Model of one `Adafruit_CC3000_Client` session object. -/
structure Session where
  rx : List Nat
  tx : List Nat
  writeOk : List Bool
  connected : Bool
deriving Repr, DecidableEq

/-- Model of `i->client.write(ch)`: on success the byte is sent back to the
client (appended to `tx`) and 1 is returned; on failure (the CC3000 library
returning 0) the byte is lost.  Each write attempt consumes one entry of the
`writeOk` oracle; an empty oracle means success. -/
def writeToClient (s : Session) (ch : Nat) : Session × Nat :=
  match s.writeOk with
  | [] => ({ s with tx := s.tx ++ [ch] }, 1)
  | ok :: rest =>
    if ok then ({ s with tx := s.tx ++ [ch], writeOk := rest }, 1)
    else ({ s with writeOk := rest }, 0)

/-- The drain while-loop of `echoLoop`, one step per buffered byte:

      while (i->client.available() > 0) {
        uint8_t ch = i->client.read();
        if (i->client.write(ch) == 0) { ...log... }
      }

`read()` pops the front of `rx`; the byte is immediately written back.
A zero return from `write` is only logged (the loop keeps draining). -/
def drainGo : List Nat → Session → Session
  | [], s => s
  | ch :: rest, s => drainGo rest (writeToClient { s with rx := rest } ch).1

/-- Drain every available byte of a session (the inner while-loop of
`echoLoop` run to completion for one client). -/
def drainClient (s : Session) : Session :=
  drainGo s.rx s

/-- One `ClientList` node.  `id` is the address `malloc` returned for the
node; `socket` and `client` are the node's fields.  The `next` field is
represented by list adjacency. -/
structure Node where
  id : Nat
  socket : Int
  client : Session
deriving Repr, DecidableEq

/-- The sketch's global registry state: `clients` (the chain read off from
the head pointer) and `clientCount`. -/
structure ServerState where
  clients : List Node
  clientCount : Int
deriving Repr, DecidableEq

/-- `#define MAX_CLIENTS 3` -/
def MAX_CLIENTS : Int := 3

/-- A freshly constructed `Adafruit_CC3000_Client(socket)`: nothing buffered,
nothing written, no pending write failures, connected. -/
def newSession : Session :=
  { rx := [], tx := [], writeOk := [], connected := true }

/-- `addNewClient(int socket)`.  The `alloc` argument models the result of
`malloc`: `none` when allocation fails (the function logs and returns
without mutating anything), `some a` when it returns a node at address `a`.
On success the new node is linked in as the new head
(`client->next = clients; clients = client;`) and `clientCount++`. -/
def addNewClient (st : ServerState) (socket : Int) (alloc : Option Nat) : ServerState :=
  match alloc with
  | none => st
  | some a =>
    { clients := { id := a, socket := socket, client := newSession } :: st.clients,
      clientCount := st.clientCount + 1 }

/-- The predecessor scan of `removeClient`: walk the rest of the chain
looking for the node with address `c`, i.e. the `i` with `i->next == client`;
`none` means the scan ran off the end (`i == NULL`), `some l` is the chain
with that node unlinked (`i->next = client->next`). -/
def removeFirst (c : Nat) : List Node → Option (List Node)
  | [] => none
  | n :: rest =>
    if n.id = c then some rest
    else (removeFirst c rest).map (fun l => n :: l)

/-- `removeClient(ClientList* client)`.  The pointer argument is modelled as
`Option Nat`: `none` is NULL (early return), `some c` the address of the node
to unlink.  If the node is the head, the head advances; otherwise the
predecessor scan relinks around it; if the scan finds nothing the function
returns with no mutation.  On an actual unlink the node is freed and
`clientCount--`. -/
def removeClient (st : ServerState) (client : Option Nat) : ServerState :=
  match client with
  | none => st
  | some c =>
    match st.clients with
    | [] => st
    | n :: rest =>
      if n.id = c then
        { clients := rest, clientCount := st.clientCount - 1 }
      else
        match removeFirst c rest with
        | none => st
        | some rest' => { clients := n :: rest', clientCount := st.clientCount - 1 }

/-- Dereference a node pointer: find the node at address `c` in the chain. -/
def findNode (c : Nat) : List Node → Option Node
  | [] => none
  | n :: rest => if n.id = c then some n else findNode c rest

/-- Write back the (mutated) session object of the node at address `c`. -/
def setClient (c : Nat) (s : Session) : List Node → List Node
  | [] => []
  | n :: rest =>
    if n.id = c then { n with client := s } :: rest
    else n :: setClient c s rest

/-- The drain-and-evict pass of `echoLoop`, iterating over the saved chain
of node pointers (`ClientList* next = i->next;` is saved before any removal,
and removal only ever unlinks the current node, so the pointers visited are
exactly the nodes of the chain at the start of the pass, in order).  For
each pointer: dereference it, run the drain while-loop on its client, then
check `connected()` once and call `removeClient(i)` when it reports false. -/
def loopBody (st : ServerState) : List Nat → ServerState
  | [] => st
  | i :: next =>
    match findNode i st.clients with
    | none => loopBody st next
    | some n =>
      let s := drainClient n.client
      let st' : ServerState := { st with clients := setClient i s st.clients }
      loopBody (if s.connected then st' else removeClient st' (some i)) next

/-- The full per-tick pass over the registry (`ClientList* i = clients;`
then the traversal of `echoLoop`). -/
def clientPass (st : ServerState) : ServerState :=
  loopBody st (st.clients.map Node.id)

/-- The accept phase of `echoLoop`: only when `clientCount < MAX_CLIENTS`
is one `accept` made; `newSocket` models its return value and a connection
is added exactly when `newSocket > -1`.  `alloc` models `malloc` inside
`addNewClient`. -/
def acceptPhase (st : ServerState) (newSocket : Int) (alloc : Option Nat) : ServerState :=
  if st.clientCount < MAX_CLIENTS then
    if newSocket > -1 then addNewClient st newSocket alloc else st
  else st

/-- One invocation of `echoLoop()`: the drain/evict pass over every client,
followed by the accept phase. -/
def echoLoop (st : ServerState) (newSocket : Int) (alloc : Option Nat) : ServerState :=
  acceptPhase (clientPass st) newSocket alloc

/-- What the environment may do between two ticks: the CC3000 firmware can
change each session's buffered bytes, write-result oracle and connected
status, but cannot touch the chain structure or the count. -/
def envUpdate (f : Nat → Session → Session) (st : ServerState) : ServerState :=
  { st with clients := st.clients.map (fun n => { n with client := f n.id n.client }) }

/-- A node after its drain phase. -/
def drainNode (n : Node) : Node :=
  { n with client := drainClient n.client }

/-- Registry states reachable by the sketch: `echoSetup` initialises
`clients = NULL; clientCount = 0;` and then `loop()` calls `echoLoop()`
repeatedly, the firmware updating the sessions in between. -/
inductive Reachable : ServerState → Prop
  | init : Reachable { clients := [], clientCount := 0 }
  | step (st : ServerState) (f : Nat → Session → Session) (newSocket : Int)
      (alloc : Option Nat) (h : Reachable st) :
      Reachable (echoLoop (envUpdate f st) newSocket alloc)

/-- An abstract insert/remove operation on the registry, for stating
properties of all operation sequences. -/
inductive RegOp
  | insert (socket : Int) (alloc : Option Nat)
  | remove (client : Option Nat)

/-- Run one registry operation. -/
def applyOp (st : ServerState) : RegOp → ServerState
  | RegOp.insert s a => addNewClient st s a
  | RegOp.remove c => removeClient st c

/-- Run a sequence of registry operations from the empty registry. -/
def applyOps (ops : List RegOp) : ServerState :=
  ops.foldl applyOp { clients := [], clientCount := 0 }

/-- Concrete registry with two connected clients (sockets 4 and 5 on nodes
allocated at addresses 1 and 2). -/
def twoNodeState : ServerState :=
  ⟨[⟨1, 4, newSession⟩, ⟨2, 5, newSession⟩], 2⟩

/-- Concrete registry holding `MAX_CLIENTS` clients. -/
def threeNodeState : ServerState :=
  ⟨[⟨1, 4, newSession⟩, ⟨2, 5, newSession⟩, ⟨3, 6, newSession⟩], 3⟩

/-- Concrete registry with one live client and one client that has a byte
buffered but whose liveness check reports disconnected. -/
def evictState : ServerState :=
  ⟨[⟨1, 4, ⟨[], [], [], true⟩⟩, ⟨2, 5, ⟨[7], [], [], false⟩⟩], 2⟩

/-! ### Session lemmas -/

lemma writeToClient_ok (s : Session) (ch : Nat) (h : ∀ b ∈ s.writeOk, b = true) :
    (writeToClient s ch).1 = { s with tx := s.tx ++ [ch], writeOk := (s.writeOk).tail } := by
  cases hw : s.writeOk with
  | nil => simp [writeToClient, hw]
  | cons ok rest =>
    have hok : ok = true := h ok (by rw [hw]; exact List.mem_cons_self ok rest)
    simp [writeToClient, hw, hok]

lemma drainGo_all_ok (l : List Nat) :
    ∀ s : Session, (∀ b ∈ s.writeOk, b = true) →
      (drainGo l s).tx = s.tx ++ l ∧
        (drainGo l s).rx = (if l = [] then s.rx else []) ∧
        (drainGo l s).connected = s.connected := by
  induction l with
  | nil => intro s _; simp [drainGo]
  | cons ch rest ih =>
    intro s h
    have hw := writeToClient_ok { s with rx := rest } ch h
    have htail : ∀ b ∈ (s.writeOk).tail, b = true := by
      intro b hb
      exact h b (List.mem_of_mem_tail hb)
    rcases ih { s with rx := rest, tx := s.tx ++ [ch], writeOk := (s.writeOk).tail } htail
      with ⟨htx, hrx, hconn⟩
    refine ⟨?_, ?_, ?_⟩
    · simp only [drainGo, hw, htx, List.append_assoc, List.singleton_append]
    · simp only [drainGo, hw, hrx]
      by_cases hr : rest = [] <;> simp [hr]
    · simp only [drainGo, hw, hconn]

lemma drainClient_all_ok (s : Session) (h : ∀ b ∈ s.writeOk, b = true) :
    (drainClient s).tx = s.tx ++ s.rx ∧ (drainClient s).rx = [] := by
  rcases drainGo_all_ok s.rx s h with ⟨htx, hrx, _⟩
  refine ⟨htx, ?_⟩
  rw [drainClient] at *
  cases hr : s.rx with
  | nil => rw [hr] at hrx; simpa [hr] using hrx
  | cons a l => rw [hr] at hrx; simpa [hr] using hrx

lemma drainGo_connected (l : List Nat) :
    ∀ s : Session, (drainGo l s).connected = s.connected := by
  induction l with
  | nil => intro s; rfl
  | cons ch rest ih =>
    intro s
    rw [drainGo, ih]
    unfold writeToClient
    cases s.writeOk with
    | nil => rfl
    | cons ok r => by_cases hok : ok = true <;> simp [hok]

lemma drainClient_connected (s : Session) : (drainClient s).connected = s.connected :=
  drainGo_connected s.rx s

/-! ### removeClient lemmas -/

lemma removeFirst_eq_none (c : Nat) (l : List Node) (h : c ∉ l.map Node.id) :
    removeFirst c l = none := by
  induction l with
  | nil => rfl
  | cons n rest ih =>
    simp only [List.map_cons, List.mem_cons, not_or] at h
    have hne : ¬n.id = c := fun hc => h.1 hc.symm
    rw [removeFirst, if_neg hne, ih h.2]
    rfl

lemma removeFirst_of_mem (c : Nat) (xs ys : List Node) (n : Node) (hn : n.id = c)
    (hx : c ∉ xs.map Node.id) :
    removeFirst c (xs ++ n :: ys) = some (xs ++ ys) := by
  induction xs with
  | nil => simp [removeFirst, hn]
  | cons x rest ih =>
    simp only [List.map_cons, List.mem_cons, not_or] at hx
    have hne : ¬x.id = c := fun hc => hx.1 hc.symm
    rw [List.cons_append, removeFirst, if_neg hne]
    have ih' := ih hx.2
    rw [ih']
    simp

lemma removeFirst_length (c : Nat) (l l' : List Node) (h : removeFirst c l = some l') :
    l.length = l'.length + 1 := by
  induction l generalizing l' with
  | nil => simp [removeFirst] at h
  | cons n rest ih =>
    rw [removeFirst] at h
    by_cases hc : n.id = c
    · rw [if_pos hc] at h
      cases h
      rfl
    · rw [if_neg hc] at h
      cases hr : removeFirst c rest with
      | none => rw [hr] at h; simp at h
      | some rest' =>
        rw [hr] at h
        simp at h
        subst h
        simp [ih rest' hr]

lemma removeClient_none (st : ServerState) : removeClient st none = st := rfl

lemma removeClient_not_mem (st : ServerState) (c : Nat)
    (h : c ∉ st.clients.map Node.id) : removeClient st (some c) = st := by
  rcases st with ⟨cl, cnt⟩
  cases cl with
  | nil => rfl
  | cons n rest =>
    simp only [List.map_cons, List.mem_cons, not_or] at h
    have hne : ¬n.id = c := fun hc => h.1 hc.symm
    simp only [removeClient, if_neg hne, removeFirst_eq_none c rest h.2]

lemma removeClient_of_mem (xs ys : List Node) (n : Node) (cnt : Int)
    (hx : n.id ∉ xs.map Node.id) :
    removeClient { clients := xs ++ n :: ys, clientCount := cnt } (some n.id) =
      { clients := xs ++ ys, clientCount := cnt - 1 } := by
  cases xs with
  | nil => simp [removeClient]
  | cons x rest =>
    simp only [List.map_cons, List.mem_cons, not_or] at hx
    have hne : ¬x.id = n.id := fun hc => hx.1 hc.symm
    simp only [List.cons_append, removeClient, if_neg hne,
      removeFirst_of_mem n.id rest ys n rfl hx.2]

lemma removeClient_diff (st : ServerState) (c : Option Nat) :
    (removeClient st c).clientCount - ((removeClient st c).clients.length : Int) =
      st.clientCount - (st.clients.length : Int) := by
  cases c with
  | none => rfl
  | some c =>
    rcases st with ⟨cl, cnt⟩
    cases cl with
    | nil => rfl
    | cons n rest =>
      by_cases hc : n.id = c
      · simp only [removeClient, if_pos hc, List.length_cons]
        push_cast
        ring
      · simp only [removeClient, if_neg hc]
        cases hr : removeFirst c rest with
        | none => rfl
        | some rest' =>
          have hl := removeFirst_length c rest rest' hr
          simp only [List.length_cons, hl]
          push_cast
          ring

lemma removeClient_length_le (st : ServerState) (c : Option Nat) :
    (removeClient st c).clients.length ≤ st.clients.length := by
  cases c with
  | none => exact le_refl _
  | some c =>
    rcases st with ⟨cl, cnt⟩
    cases cl with
    | nil => exact le_refl _
    | cons n rest =>
      by_cases hc : n.id = c
      · simp [removeClient, hc]
      · simp only [removeClient, if_neg hc]
        cases hr : removeFirst c rest with
        | none => exact le_refl _
        | some rest' =>
          have hl := removeFirst_length c rest rest' hr
          simp [hl]

/-! ### findNode / setClient lemmas -/

lemma findNode_append_right (c : Nat) (xs ys : List Node) (h : c ∉ xs.map Node.id) :
    findNode c (xs ++ ys) = findNode c ys := by
  induction xs with
  | nil => rfl
  | cons x rest ih =>
    simp only [List.map_cons, List.mem_cons, not_or] at h
    have hne : ¬x.id = c := fun hc => h.1 hc.symm
    rw [List.cons_append, findNode, if_neg hne, ih h.2]

lemma findNode_cons_self (n : Node) (rest : List Node) :
    findNode n.id (n :: rest) = some n := by
  rw [findNode, if_pos rfl]

lemma setClient_append_right (c : Nat) (s : Session) (xs ys : List Node)
    (h : c ∉ xs.map Node.id) :
    setClient c s (xs ++ ys) = xs ++ setClient c s ys := by
  induction xs with
  | nil => rfl
  | cons x rest ih =>
    simp only [List.map_cons, List.mem_cons, not_or] at h
    have hne : ¬x.id = c := fun hc => h.1 hc.symm
    rw [List.cons_append, setClient, if_neg hne, ih h.2, List.cons_append]

lemma setClient_cons_self (n : Node) (s : Session) (rest : List Node) :
    setClient n.id s (n :: rest) = { n with client := s } :: rest := by
  rw [setClient, if_pos rfl]

lemma setClient_length (c : Nat) (s : Session) (l : List Node) :
    (setClient c s l).length = l.length := by
  induction l with
  | nil => rfl
  | cons n rest ih =>
    rw [setClient]
    by_cases hc : n.id = c
    · rw [if_pos hc]
      rfl
    · rw [if_neg hc, List.length_cons, List.length_cons, ih]

/-! ### The drain/evict pass: characterization and invariants -/

/-- A node is live after its drain exactly when the filter predicate of the
characterization keeps it. -/
lemma drainNode_connected (n : Node) :
    (drainNode n).client.connected = (drainClient n.client).connected := rfl

/-- Main characterization of the traversal of `echoLoop`: starting from a
chain `done ++ todo` where the nodes still to visit are exactly `todo`
(their saved pointers, in order) and all addresses are distinct, the pass
leaves `done` untouched, drains every node of `todo`, keeps exactly the
ones whose session is still connected (in order), and decrements the count
once per removed node. -/
lemma loopBody_append (todo : List Node) :
    ∀ (done : List Node) (cnt : Int),
      ((done ++ todo).map Node.id).Nodup →
      loopBody { clients := done ++ todo, clientCount := cnt } (todo.map Node.id) =
        { clients := done ++ (todo.map drainNode).filter (fun n => n.client.connected),
          clientCount :=
            cnt - ((todo.map drainNode).filter (fun n => !n.client.connected)).length } := by
  induction todo with
  | nil => intro done cnt _; simp [loopBody]
  | cons t rest ih =>
    intro done cnt hnd
    have hmid : ((done ++ t :: rest).map Node.id).Nodup := hnd
    rw [List.map_append, List.map_cons] at hmid
    have hmid' := (List.nodup_middle).mp hmid
    rw [List.nodup_cons] at hmid'
    have htid : t.id ∉ done.map Node.id ++ rest.map Node.id := hmid'.1
    have htdone : t.id ∉ done.map Node.id := fun hm =>
      htid (List.mem_append_left _ hm)
    have htrest : t.id ∉ rest.map Node.id := fun hm =>
      htid (List.mem_append_right _ hm)
    rw [List.map_cons, loopBody]
    rw [show ({ clients := done ++ t :: rest, clientCount := cnt } :
        ServerState).clients = done ++ t :: rest from rfl]
    rw [findNode_append_right t.id done (t :: rest) htdone, findNode_cons_self]
    simp only
    rw [setClient_append_right t.id (drainClient t.client) done (t :: rest) htdone,
      setClient_cons_self]
    by_cases hconn : (drainClient t.client).connected
    · rw [if_pos hconn]
      have hrw : done ++ { t with client := drainClient t.client } :: rest =
          (done ++ [drainNode t]) ++ rest := by
        simp [drainNode]
      rw [hrw]
      have hnd' : (((done ++ [drainNode t]) ++ rest).map Node.id).Nodup := by
        have : ((done ++ [drainNode t]) ++ rest).map Node.id =
            (done ++ t :: rest).map Node.id := by
          simp [drainNode]
        rw [this]
        exact hnd
      rw [ih (done ++ [drainNode t]) cnt hnd']
      have hkeep : (List.map drainNode (t :: rest)).filter (fun n => n.client.connected) =
          drainNode t :: (List.map drainNode rest).filter (fun n => n.client.connected) := by
        rw [List.map_cons, List.filter_cons]
        simp [drainNode_connected, hconn]
      have hdead : (List.map drainNode (t :: rest)).filter (fun n => !n.client.connected) =
          (List.map drainNode rest).filter (fun n => !n.client.connected) := by
        rw [List.map_cons, List.filter_cons]
        simp [drainNode_connected, hconn]
      rw [hkeep, hdead]
      simp [List.append_assoc]
    · rw [if_neg hconn]
      have hrm := removeClient_of_mem done rest { t with client := drainClient t.client }
        cnt htdone
      rw [show ({ t with client := drainClient t.client } : Node).id = t.id from rfl] at hrm
      rw [hrm]
      have hnd' : ((done ++ rest).map Node.id).Nodup := by
        rw [List.map_append]
        exact hmid'.2
      rw [ih done (cnt - 1) hnd']
      have hkeep : (List.map drainNode (t :: rest)).filter (fun n => n.client.connected) =
          (List.map drainNode rest).filter (fun n => n.client.connected) := by
        rw [List.map_cons, List.filter_cons]
        simp [drainNode_connected, hconn]
      have hdead : (List.map drainNode (t :: rest)).filter (fun n => !n.client.connected) =
          drainNode t :: (List.map drainNode rest).filter (fun n => !n.client.connected) := by
        rw [List.map_cons, List.filter_cons]
        simp [drainNode_connected, hconn]
      rw [hkeep, hdead]
      refine congrArg₂ ServerState.mk rfl ?_
      rw [List.length_cons]
      push_cast
      ring

/-- Characterization of the full pass over the registry. -/
lemma clientPass_spec (st : ServerState) (hnd : (st.clients.map Node.id).Nodup) :
    clientPass st =
      { clients := (st.clients.map drainNode).filter (fun n => n.client.connected),
        clientCount :=
          st.clientCount -
            ((st.clients.map drainNode).filter (fun n => !n.client.connected)).length } := by
  have h := loopBody_append st.clients [] st.clientCount (by simpa using hnd)
  simpa [clientPass] using h

/-! ### Invariants along the server loop (no distinctness needed) -/

lemma envUpdate_clientCount (f : Nat → Session → Session) (st : ServerState) :
    (envUpdate f st).clientCount = st.clientCount := rfl

lemma envUpdate_length (f : Nat → Session → Session) (st : ServerState) :
    (envUpdate f st).clients.length = st.clients.length := by
  simp [envUpdate]

lemma loopBody_inv (cursor : List Nat) :
    ∀ st : ServerState,
      (loopBody st cursor).clientCount - ((loopBody st cursor).clients.length : Int) =
          st.clientCount - (st.clients.length : Int) ∧
        (loopBody st cursor).clients.length ≤ st.clients.length := by
  induction cursor with
  | nil => intro st; exact ⟨rfl, le_refl _⟩
  | cons i next ih =>
    intro st
    rw [loopBody]
    cases hf : findNode i st.clients with
    | none => exact ih st
    | some n =>
      simp only
      by_cases hc : (drainClient n.client).connected
      · rw [if_pos hc]
        have hst' := ih { st with clients := setClient i (drainClient n.client) st.clients }
        rcases hst' with ⟨hd, hl⟩
        constructor
        · rw [hd]
          simp [setClient_length]
        · calc (loopBody { st with
                clients := setClient i (drainClient n.client) st.clients } next).clients.length
              ≤ (setClient i (drainClient n.client) st.clients).length := hl
            _ = st.clients.length := setClient_length _ _ _
      · rw [if_neg hc]
        set st' : ServerState :=
          { st with clients := setClient i (drainClient n.client) st.clients } with hst'
        have hrd := removeClient_diff st' (some i)
        have hrl := removeClient_length_le st' (some i)
        rcases ih (removeClient st' (some i)) with ⟨hd, hl⟩
        constructor
        · rw [hd, hrd, hst']
          simp [setClient_length]
        · calc (loopBody (removeClient st' (some i)) next).clients.length
              ≤ (removeClient st' (some i)).clients.length := hl
            _ ≤ st'.clients.length := hrl
            _ = st.clients.length := by rw [hst']; exact setClient_length _ _ _

lemma reachable_inv (st : ServerState) (h : Reachable st) :
    st.clientCount = (st.clients.length : Int) ∧ st.clientCount ≤ MAX_CLIENTS := by
  induction h with
  | init => exact ⟨rfl, by norm_num [MAX_CLIENTS]⟩
  | step st f newSocket alloc hst ih =>
    rcases ih with ⟨heq, hle⟩
    have h1l : (envUpdate f st).clients.length = st.clients.length :=
      envUpdate_length f st
    rcases loopBody_inv ((envUpdate f st).clients.map Node.id) (envUpdate f st)
      with ⟨hd, hl⟩
    have hpc : (clientPass (envUpdate f st)).clientCount =
        ((clientPass (envUpdate f st)).clients.length : Int) := by
      have : (envUpdate f st).clientCount - ((envUpdate f st).clients.length : Int) = 0 := by
        rw [envUpdate_clientCount, h1l, heq]
        ring
      have hd' := hd
      rw [this] at hd'
      unfold clientPass
      omega
    have hple : (clientPass (envUpdate f st)).clientCount ≤ MAX_CLIENTS := by
      have hll : (clientPass (envUpdate f st)).clients.length ≤ st.clients.length := by
        unfold clientPass
        rw [← h1l]
        exact hl
      have : ((clientPass (envUpdate f st)).clients.length : Int) ≤
          (st.clients.length : Int) := by exact_mod_cast hll
      omega
    rw [echoLoop]
    set p := clientPass (envUpdate f st) with hp
    rw [acceptPhase]
    by_cases hlt : p.clientCount < MAX_CLIENTS
    · rw [if_pos hlt]
      by_cases hs : newSocket > -1
      · rw [if_pos hs]
        cases alloc with
        | none => exact ⟨hpc, hple⟩
        | some a =>
          constructor
          · simp only [addNewClient, List.length_cons]
            push_cast
            omega
          · simp only [addNewClient]
            omega
      · rw [if_neg hs]
        exact ⟨hpc, hple⟩
    · rw [if_neg hlt]
      exact ⟨hpc, hple⟩

/-! ### Registry operation sequences -/

lemma applyOp_count (st : ServerState) (op : RegOp)
    (h : st.clientCount = (st.clients.length : Int)) :
    (applyOp st op).clientCount = ((applyOp st op).clients.length : Int) := by
  cases op with
  | insert s a =>
    cases a with
    | none => exact h
    | some a =>
      simp only [applyOp, addNewClient, List.length_cons]
      push_cast
      omega
  | remove c =>
    have hd := removeClient_diff st c
    simp only [applyOp]
    omega

lemma foldl_applyOp_count (l : List RegOp) :
    ∀ st : ServerState, st.clientCount = (st.clients.length : Int) →
      (l.foldl applyOp st).clientCount = ((l.foldl applyOp st).clients.length : Int) := by
  induction l with
  | nil => intro st h; exact h
  | cons op rest ih =>
    intro st h
    rw [List.foldl_cons]
    exact ih _ (applyOp_count st op h)

-- sanity checks (concrete evaluations of the model)
example :
    drainClient { rx := [1, 2, 3], tx := [], writeOk := [], connected := true } =
      { rx := [], tx := [1, 2, 3], writeOk := [], connected := true } := by decide

example :
    drainClient { rx := [7, 8], tx := [], writeOk := [false], connected := true } =
      { rx := [], tx := [8], writeOk := [], connected := true } := by decide

example :
    (applyOps [RegOp.insert 4 (some 10), RegOp.insert 5 (some 11),
      RegOp.remove (some 10)]).clientCount = 1 := by decide

example :
    (removeClient { clients := [⟨1, 4, newSession⟩, ⟨2, 5, newSession⟩], clientCount := 2 }
        (some 9)).clients.length = 2 := by decide

/-! ### The claims -/

/-- C1.  Echo fidelity: for any byte sequence received on a connection's
session, assuming every write succeeds (`write` never returns 0), the drain
phase of the server loop writes back on that same session exactly the bytes
of the sequence, in arrival order, unmodified. -/
theorem echo_fidelity (s : Session) (hw : ∀ b ∈ s.writeOk, b = true) :
    (drainClient s).tx = s.tx ++ s.rx ∧ (drainClient s).rx = [] :=
  drainClient_all_ok s hw

theorem echo_fidelity_witness :
    (∀ b ∈ (⟨[104, 105, 10], [], [], true⟩ : Session).writeOk, b = true) ∧
      ((drainClient ⟨[104, 105, 10], [], [], true⟩).tx = [] ++ [104, 105, 10] ∧
        (drainClient ⟨[104, 105, 10], [], [], true⟩).rx = []) :=
  ⟨by decide, echo_fidelity ⟨[104, 105, 10], [], [], true⟩ (by decide)⟩

/-- C2.  Registry size invariant: for every sequence of insert
(`addNewClient`) and remove (`removeClient`) operations starting from the
empty registry, `clientCount` equals the number of nodes reachable from
the chain head `clients` after every operation. -/
theorem registry_count_eq_reachable (ops : List RegOp) :
    (applyOps ops).clientCount = ((applyOps ops).clients.length : Int) := by
  rw [applyOps]
  exact foldl_applyOp_count ops { clients := [], clientCount := 0 } (by simp)

/-- C3.  Concurrency ceiling: in every state reachable by repeated
invocations of `echoLoop` from the initial empty registry, `clientCount`
never exceeds `MAX_CLIENTS`; and when the count equals `MAX_CLIENTS` the
accept phase does nothing at all — no accept attempt, no insert, no
eviction of an existing connection. -/
theorem concurrency_ceiling (st : ServerState) (h : Reachable st) :
    st.clientCount ≤ MAX_CLIENTS ∧
      ∀ (newSocket : Int) (alloc : Option Nat),
        st.clientCount = MAX_CLIENTS → acceptPhase st newSocket alloc = st := by
  refine ⟨(reachable_inv st h).2, ?_⟩
  intro ns al hmax
  rw [acceptPhase, if_neg ?_]
  rw [hmax]
  exact lt_irrefl MAX_CLIENTS

theorem concurrency_ceiling_witness :
    ({ clients := [], clientCount := 0 } : ServerState).clientCount ≤ MAX_CLIENTS ∧
      ∀ (newSocket : Int) (alloc : Option Nat),
        ({ clients := [], clientCount := 0 } : ServerState).clientCount = MAX_CLIENTS →
          acceptPhase { clients := [], clientCount := 0 } newSocket alloc =
            { clients := [], clientCount := 0 } :=
  concurrency_ceiling { clients := [], clientCount := 0 } Reachable.init

/-- C4.  Removal preserves the rest of the chain: for every registry whose
node addresses are distinct (as `malloc` guarantees) and every node present
in it — head, middle or sole node — `removeClient` on that node yields a
registry whose traversal visits exactly the remaining nodes in their
original relative order, and decrements the count by one. -/
theorem remove_preserves_chain (xs ys : List Node) (n : Node) (cnt : Int)
    (hnd : ((xs ++ n :: ys).map Node.id).Nodup) :
    (removeClient { clients := xs ++ n :: ys, clientCount := cnt }
        (some n.id)).clients = xs ++ ys ∧
      (removeClient { clients := xs ++ n :: ys, clientCount := cnt }
        (some n.id)).clientCount = cnt - 1 := by
  have hx : n.id ∉ xs.map Node.id := by
    rw [List.map_append, List.map_cons] at hnd
    have h := (List.nodup_middle).mp hnd
    rw [List.nodup_cons] at h
    exact fun hm => h.1 (List.mem_append_left _ hm)
  rw [removeClient_of_mem xs ys n cnt hx]
  exact ⟨rfl, rfl⟩

theorem remove_preserves_chain_witness :
    (((([⟨1, 4, newSession⟩] : List Node) ++ (⟨2, 5, newSession⟩ : Node) ::
        [⟨3, 6, newSession⟩]).map Node.id).Nodup) ∧
      ((removeClient ⟨([⟨1, 4, newSession⟩] : List Node) ++ (⟨2, 5, newSession⟩ : Node) ::
          [⟨3, 6, newSession⟩], 3⟩
          (some (⟨2, 5, newSession⟩ : Node).id)).clients =
            ([⟨1, 4, newSession⟩] : List Node) ++ [⟨3, 6, newSession⟩] ∧
        (removeClient ⟨([⟨1, 4, newSession⟩] : List Node) ++ (⟨2, 5, newSession⟩ : Node) ::
          [⟨3, 6, newSession⟩], 3⟩
          (some (⟨2, 5, newSession⟩ : Node).id)).clientCount = 3 - 1) :=
  ⟨by decide, remove_preserves_chain [⟨1, 4, newSession⟩] [⟨3, 6, newSession⟩]
    ⟨2, 5, newSession⟩ 3 (by decide)⟩

/-- C5.  Disconnect eviction: during one tick each connection's liveness is
checked exactly once, on its fully drained session (never mid-drain): the
post-pass registry is exactly the drained nodes filtered by that single
liveness check, in order; consequently a connection whose check reports
not-connected is removed within that tick and no later traversal of the
registry visits it. -/
theorem disconnect_eviction (st : ServerState)
    (hnd : (st.clients.map Node.id).Nodup) :
    (clientPass st).clients =
        (st.clients.map drainNode).filter (fun n => n.client.connected) ∧
      ∀ n ∈ st.clients, (drainClient n.client).connected = false →
        n.id ∉ (clientPass st).clients.map Node.id := by
  have hch := clientPass_spec st hnd
  constructor
  · rw [hch]
  · intro n hn hdead hmem
    rw [hch] at hmem
    simp only [List.mem_map] at hmem
    obtain ⟨m, hmf, hmid⟩ := hmem
    rw [List.mem_filter] at hmf
    obtain ⟨hmm, hmlive⟩ := hmf
    rw [List.mem_map] at hmm
    obtain ⟨k, hk, hkm⟩ := hmm
    subst hkm
    have hkid : k.id = n.id := hmid
    have hkn : k = n := List.inj_on_of_nodup_map hnd hk hn hkid
    subst hkn
    have hlive' : (drainClient k.client).connected = true := hmlive
    rw [hdead] at hlive'
    exact Bool.false_ne_true hlive'

theorem disconnect_eviction_witness :
    (evictState.clients.map Node.id).Nodup ∧
      ((clientPass evictState).clients =
          (evictState.clients.map drainNode).filter (fun n => n.client.connected) ∧
        ∀ n ∈ evictState.clients, (drainClient n.client).connected = false →
          n.id ∉ (clientPass evictState).clients.map Node.id) :=
  ⟨by decide, disconnect_eviction evictState (by decide)⟩

/-- C6.  Insert atomicity on allocation failure: if node allocation fails
(`malloc` returns null), `addNewClient` returns having mutated nothing —
the chain head and the count are both unchanged. -/
theorem insert_alloc_failure_no_mutation (st : ServerState) (socket : Int) :
    addNewClient st socket none = st := rfl

/-- C7.  Remove of an absent node is a no-op: for every registry, calling
`removeClient` with a null pointer or with a node address not present in
the chain leaves the count and the chain structure unchanged. -/
theorem remove_absent_noop (st : ServerState) (c : Nat)
    (h : c ∉ st.clients.map Node.id) :
    removeClient st none = st ∧ removeClient st (some c) = st :=
  ⟨rfl, removeClient_not_mem st c h⟩

theorem remove_absent_noop_witness :
    ((9 : Nat) ∉ twoNodeState.clients.map Node.id) ∧
      (removeClient twoNodeState none = twoNodeState ∧
        removeClient twoNodeState (some 9) = twoNodeState) :=
  ⟨by decide, remove_absent_noop twoNodeState 9 (by decide)⟩

/-- C8.  Insert-at-head and traversal order: `addNewClient` links the new
node as the new head of the chain and increments the count by one, so the
traversal performed by the server loop (the chain read from the head)
visits connections in most-recently-inserted-first order. -/
theorem insert_at_head (st : ServerState) (socket : Int) (a : Nat) :
    (addNewClient st socket (some a)).clients =
        { id := a, socket := socket, client := newSession } :: st.clients ∧
      (addNewClient st socket (some a)).clientCount = st.clientCount + 1 ∧
      (addNewClient st socket (some a)).clients.map Node.id =
        a :: st.clients.map Node.id :=
  ⟨rfl, rfl, by simp [addNewClient]⟩

/-- C9.  One accept per tick, after the full pass: one invocation of
`echoLoop` runs the drain/evict pass over every tracked connection first
and only then the accept phase; the result either is exactly the pass
result (no insert) or has exactly one new connection prepended to it, and
the latter only when the post-pass count is below `MAX_CLIENTS`. -/
theorem one_accept_per_tick (st : ServerState) (newSocket : Int)
    (alloc : Option Nat) :
    echoLoop st newSocket alloc = acceptPhase (clientPass st) newSocket alloc ∧
      (echoLoop st newSocket alloc = clientPass st ∨
        ∃ a : Nat, alloc = some a ∧
          (clientPass st).clientCount < MAX_CLIENTS ∧ newSocket > -1 ∧
          (echoLoop st newSocket alloc).clients =
            { id := a, socket := newSocket, client := newSession } ::
              (clientPass st).clients ∧
          (echoLoop st newSocket alloc).clientCount =
            (clientPass st).clientCount + 1) := by
  refine ⟨rfl, ?_⟩
  rw [echoLoop, acceptPhase]
  by_cases hlt : (clientPass st).clientCount < MAX_CLIENTS
  · rw [if_pos hlt]
    by_cases hs : newSocket > -1
    · rw [if_pos hs]
      cases alloc with
      | none => exact Or.inl rfl
      | some a => exact Or.inr ⟨a, rfl, hlt, hs, rfl, rfl⟩
    · rw [if_neg hs]
      exact Or.inl rfl
  · rw [if_neg hlt]
    exact Or.inl rfl

/-- C10.  Implicit: `addNewClient` itself performs no capacity check — if
allocation succeeds it inserts and increments the count even when the
count already equals `MAX_CLIENTS`, yielding `MAX_CLIENTS + 1`; the
concurrency ceiling is enforced solely by the guard in the accept phase. -/
theorem insert_no_capacity_check (st : ServerState) (socket : Int) (a : Nat)
    (h : st.clientCount = MAX_CLIENTS) :
    (addNewClient st socket (some a)).clientCount = MAX_CLIENTS + 1 ∧
      (addNewClient st socket (some a)).clients =
        { id := a, socket := socket, client := newSession } :: st.clients := by
  constructor
  · simp [addNewClient, h]
  · rfl

theorem insert_no_capacity_check_witness :
    threeNodeState.clientCount = MAX_CLIENTS ∧
      ((addNewClient threeNodeState 9 (some 7)).clientCount = MAX_CLIENTS + 1 ∧
        (addNewClient threeNodeState 9 (some 7)).clients =
          { id := 7, socket := 9, client := newSession } :: threeNodeState.clients) :=
  ⟨by decide, insert_no_capacity_check threeNodeState 9 7 (by decide)⟩
